import Mathlib

/-
Shallow embedding of the dendrocat repository core (src/dendrocat/utils.py):
the pairwise catalog merge (`match`), the bounding-ellipse solver driver
(`commonbeam`), the unit guard (`ucheck`), and the region-file export
(`saveregions`).

Modelling conventions:
* Numeric column values are exact rationals (`ℚ`).  The code compares the
  Euclidean distance `sqrt(dx^2 + dy^2)` against a threshold and sorts by it;
  since `sqrt` is strictly monotone on nonnegative reals, the embedding keeps
  squared distances and a squared threshold, which preserves every comparison
  and every ordering the code performs.
* astropy tables become lists of rows.  A row keeps the core columns of the
  input contract (`_idx`, `_index`, `x_cen`, `y_cen`, `major_fwhm`,
  `minor_fwhm`, `position_angle`, `rejected`) as plain fields and the
  remaining columns as an association list of optional values, `none` being a
  masked (missing) entry.  The input contract guarantees the core columns are
  present, so only extra columns can be masked here.
* `numpy` argsort ties are broken in an unspecified order; the embedding uses
  a stable insertion sort.  No theorem below depends on tie-breaking.
* The `radio_beam` common-beam solver is numerical code outside this
  repository; the merge embedding takes the ellipse-union function as an
  explicit parameter `eu`, and the `commonbeam` tolerance-retry driver is
  modelled over an abstract solver `solve : ℚ → Option Ellipse` where `none`
  stands for a raised `BeamError`.
-/

namespace Dendrocat

/-- Stable insertion of `x` into a list: `x` passes over every element `y`
with `le y x`, so it lands after all earlier elements that compare
less-or-equal (in particular after ties). -/
def insAfter (le : α → α → Bool) (x : α) : List α → List α
  | [] => [x]
  | y :: ys => if le y x then y :: insAfter le x ys else x :: y :: ys

/-- Stable sort by repeated insertion (models the table `sort` calls). -/
def sortByLe (le : α → α → Bool) (l : List α) : List α :=
  l.foldl (fun acc x => insAfter le x acc) []

/-- All suffixes of a list. -/
def suffixes : List α → List (List α)
  | [] => [[]]
  | x :: xs => (x :: xs) :: suffixes xs

/-- Python's `needle in hay` on strings: substring containment. -/
def strContains (needle hay : String) : Bool :=
  (suffixes hay.toList).any (fun t => needle.toList.isPrefixOf t)

/-- One stacked-catalog row.  Core columns of the input contract are plain
fields; all other columns live in `extra`, where `none` is a masked entry. -/
structure SrcRow where
  idx : ℤ                 -- the '_idx' column
  index : ℤ               -- the '_index' column (positional id added by match)
  x_cen : ℚ
  y_cen : ℚ
  major_fwhm : ℚ
  minor_fwhm : ℚ
  position_angle : ℚ
  rejected : ℤ
  extra : List (String × Option ℚ)
deriving DecidableEq, Inhabited

/-- An ellipse parameter triple (major_fwhm, minor_fwhm, position_angle). -/
abbrev Ellipse := ℚ × ℚ × ℚ

/-- A catalog: its extra-column schema and its rows. -/
structure Catalog where
  extraCols : List String
  rows : List SrcRow
deriving DecidableEq, Inhabited

/-- Value of extra column `c` in row `r`; absent assoc entries are masked. -/
def lookupExtra (r : SrcRow) (c : String) : Option ℚ :=
  (r.extra.lookup c).getD none

/-- Re-expresses a row of a catalog with schema `cols` over the unioned
schema `allCols`: columns the source catalog lacks become masked, as `vstack`
does. -/
def restrictRow (cols : List String) (allCols : List String) (r : SrcRow) : SrcRow :=
  { r with extra := allCols.map (fun c =>
      (c, if cols.contains c then lookupExtra r c else none)) }

def strLe (a b : String) : Bool := decide (a ≤ b)

/-- `sorted(list(set(arg1.catalog.colnames + arg2.catalog.colnames)))`
restricted to the extra columns (core columns are structure fields). -/
def allExtraColnames (c1 c2 : Catalog) : List String :=
  sortByLe strLe ((c1.extraCols ++ c2.extraCols).eraseDups)

/-- Core column names of the input contract, as they appear in the table. -/
def coreColnames : List String :=
  ["_idx", "_index", "x_cen", "y_cen", "major_fwhm", "minor_fwhm",
   "position_angle", "rejected"]

/-- The full sorted column-name list of the stacked table. -/
def sortedColnamesAll (c1 c2 : Catalog) : List String :=
  sortByLe strLe ((coreColnames ++ c1.extraCols ++ c2.extraCols).eraseDups)

/-- `vstack([arg1.catalog, arg2.catalog])` over the unioned schema, followed
by `stack.add_column(Column(range(len(stack)), name='_index'))`. -/
def buildStack (c1 c2 : Catalog) : List SrcRow :=
  let cols := allExtraColnames c1 c2
  ((c1.rows.map (restrictRow c1.extraCols cols)) ++
   (c2.rows.map (restrictRow c2.extraCols cols))).enum.map
    (fun p => { p.2 with index := (p.1 : ℤ) })

/-- One row of the working table `delta_p`: absolute per-axis offsets from
the test row, plus the candidate's `_index`. -/
structure DRow where
  dx : ℚ
  dy : ℚ
  index : ℤ
deriving DecidableEq

/-- Lines 273-277: candidates are the non-rejected rows of the current stack
minus the test row itself (removed by its `_index`), with absolute offsets. -/
def deltaP (t : SrcRow) (stack : List SrcRow) : List DRow :=
  ((stack.filter (fun r => r.rejected == 0)).filter (fun r => r.index ≠ t.index)).map
    (fun r => ⟨|r.x_cen - t.x_cen|, |r.y_cen - t.y_cen|, r.index⟩)

/-- Lines 277-290: sort candidates by `|Δx|`, keep the first
`min(10, len)` of them, and compute each one's squared Euclidean distance. -/
def cappedDists (t : SrcRow) (stack : List SrcRow) : List (ℚ × ℤ) :=
  ((sortByLe (fun a b => decide (a.dx ≤ b.dx)) (deltaP t stack)).take 10).map
    (fun d => (d.dx * d.dx + d.dy * d.dy, d.index))

/-- Lines 284-288: `found_match` is set when any of the capped candidates is
within the threshold (squared on both sides here, inclusive comparison). -/
def foundMatch (thr2 : ℚ) (dists : List (ℚ × ℤ)) : Bool :=
  dists.any (fun p => decide (p.1 ≤ thr2))

/-- Lines 291-294: `delta_p.sort('dist')` (uncomputed entries are masked and
sort last) and `delta_p[0]['_index']`: the `_index` of the nearest computed
candidate.  The default is never used when a match was found. -/
def bestIndex (t : SrcRow) (dists : List (ℚ × ℤ)) : ℤ :=
  ((sortByLe (fun a b => decide (a.1 ≤ b.1)) dists).headD (0, t.index)).2

/-- Lines 319-323: for every masked column of the surviving row, copy the
matched row's value (copying a masked value leaves the entry masked). -/
def copyMasked (matchRow : SrcRow) (r : SrcRow) : List (String × Option ℚ) :=
  r.extra.map (fun p =>
    (p.1, match p.2 with
          | some v => some v
          | none => lookupExtra matchRow p.1))

/--
Lines 293-323, the `if found_match` block: the table after the matched row
is removed and the merge results are written back.

Faithfulness notes, keyed to the source:
* `teststar = stack[i]` is an astropy `Row`, a live view into the table.
  The reads on lines 299-309 and 313-323 happen after `remove_row` (line
  296), so they see the shifted table: this is `tLive` below, the row at
  position `i` after the removal — the original test row only when the
  matched row sat at a later position.
* `match = deepcopy(stack[match_index])` (line 295) is taken before the
  removal: `matchRow` below.
* the five field writes and the masked-copy loop all target `stack[i]`
  after the removal: the `.set i newRow` below.
-/
def mergedStack (eu : Ellipse → Ellipse → Ellipse) (stack : List SrcRow) (i : ℕ) :
    List SrcRow :=
  let t := stack.getD i default
  let dists := cappedDists t stack
  let mIdx := stack.findIdx (fun r => r.index == bestIndex t dists)
  let matchRow := stack.getD mIdx default
  let stack2 := stack.eraseIdx mIdx
  let tLive := stack2.getD i default
  let newEll := eu (matchRow.major_fwhm, matchRow.minor_fwhm, matchRow.position_angle)
                   (tLive.major_fwhm, tLive.minor_fwhm, tLive.position_angle)
  let newRow := { tLive with
    x_cen := (matchRow.x_cen + tLive.x_cen) / 2
    y_cen := (matchRow.y_cen + tLive.y_cen) / 2
    major_fwhm := newEll.1
    minor_fwhm := newEll.2.1
    position_angle := newEll.2.2
    extra := copyMasked matchRow tLive }
  stack2.set i newRow

/--
Lines 262-326, the `while True` scan.  `rej` is the list of rejected row
positions computed once, before the loop, from the initial stack (the code
never refreshes it after `remove_row` shifts positions, line 256).  Returns
the final stack and a trace of `(stack length at the time, i)` pairs, one
per executed test-row body.

The fuel argument only bounds the recursion: `i` grows by one per iteration
while the stack never grows, so the loop always breaks after at most the
initial stack length iterations; `mergePass` passes `length + 1`, making the
fuel-exhausted branch unreachable (and in any case that branch returns the
same stack the break would).
-/
def matchLoop (eu : Ellipse → Ellipse → Ellipse) (thr2 : ℚ) (rej : List ℕ) :
    ℕ → List SrcRow → ℕ → List SrcRow × List (ℕ × ℕ)
  | 0, stack, _ => (stack, [])
  | fuel + 1, stack, i =>
    if stack.length - 1 ≤ i then (stack, [])
    else if i ∈ rej then matchLoop eu thr2 rej fuel stack (i + 1)
    else
      if foundMatch thr2 (cappedDists (stack.getD i default) stack) then
        let res := matchLoop eu thr2 rej fuel (mergedStack eu stack i) (i + 1)
        (res.1, (stack.length, i) :: res.2)
      else
        let res := matchLoop eu thr2 rej fuel stack (i + 1)
        (res.1, (stack.length, i) :: res.2)

/-- Result of one merge pass: the final rows (with `_index` reassigned to
`range(len(stack))`), the fill values installed on the columns whose name
contains "detected", and the trace of executed test positions. -/
structure PassResult where
  rows : List SrcRow
  detectedFill : List (String × ℚ)
  trace : List (ℕ × ℕ)
deriving DecidableEq

/-- Lines 246-333: one pass of the pairwise fold inside `match`.  `thr2` is
the squared threshold in degrees (the code converts the 0.036 arcsec default
to degrees before comparing). -/
def mergePass (eu : Ellipse → Ellipse → Ellipse) (thr2 : ℚ) (c1 c2 : Catalog) :
    PassResult :=
  let stack0 := buildStack c1 c2
  let rej := (stack0.enum.filter (fun p => p.2.rejected == 1)).map (fun p => p.1)
  let r := matchLoop eu thr2 rej (stack0.length + 1) stack0 0
  let fills := ((sortedColnamesAll c1 c2).filter (fun c => strContains "detected" c)).map
    (fun c => (c, (0 : ℚ)))
  ⟨r.1.enum.map (fun p => { p.2 with index := (p.1 : ℤ) }), fills, r.2⟩

/-
`ucheck` (lines 77-157).  Units are modelled as a physical-dimension tag plus
a scale factor relative to the dimension's base unit; `is_equivalent` is
dimension equality and `.to` rescales.  The quantity kinds the claims touch
are embedded: a `Column` (possibly without a unit), a scalar (an astropy
`Quantity` when it has a unit, a plain number when it has none), and a
list/tuple of such scalars.  The `SkyCoord`/`PixCoord`/`MaskedColumn`
branches are not needed by any claim and are omitted.  Python exceptions are
modelled as (class name, message) pairs so that error kinds and messages can
be told apart; emitted warnings are returned alongside the result.
-/

structure AUnit where
  dim : String
  scale : ℚ
deriving DecidableEq

def degU : AUnit := ⟨"angle", 1⟩
def arcsecU : AUnit := ⟨"angle", 1 / 3600⟩
def secondU : AUnit := ⟨"time", 1⟩

/-- `value.to(target)` for a value carrying unit `u0`. -/
def convert (v : ℚ) (u0 target : AUnit) : ℚ := v * u0.scale / target.scale

structure PyError where
  className : String
  msg : String
deriving DecidableEq

def nonEquivalentUnits : PyError := ⟨"NonEquivalentError", "Non-equivalent units"⟩
def cannotMix : PyError := ⟨"NonEquivalentError", "Cannot mix units and scalars"⟩

/-- The `warnings.warn("Assuming quantity is in {}".format(unit))` message
(the unit is rendered by its dimension tag here). -/
def warnMsg (u : AUnit) : String := "Assuming quantity is in " ++ u.dim

inductive UQuantity where
  | col (name : String) (vals : List ℚ) (unit : Option AUnit)
  | scalar (v : ℚ) (unit : Option AUnit)
  | qlist (items : List (ℚ × Option AUnit))
deriving DecidableEq

/-- Lines 136-147: the nested pairwise loop over `existing_units`.  Note the
inner list is `[x for x in existing_units if x != u1]`, a value-based filter.
The first offending pair raises; `none` means every pair passed. -/
def checkPair : Option AUnit → Option AUnit → Option PyError
  | some u1, some u2 => if u1.dim == u2.dim then none else some nonEquivalentUnits
  | some _, none => some cannotMix
  | none, some _ => some cannotMix
  | none, none => none

def pairCheckErr (units : List (Option AUnit)) : Option PyError :=
  units.findSome? (fun u1 =>
    (units.filter (fun x => x ≠ u1)).findSome? (fun u2 => checkPair u1 u2))

/-- Lines 90-157 of `ucheck`, restricted to the embedded quantity kinds.
Returns the converted quantity together with the warnings that were actually
emitted before returning. -/
def ucheckE : UQuantity → AUnit → Except PyError (UQuantity × List String)
  | .col name vals u0, u =>
    match u0 with
    | none =>
      -- lines 92-95: set the unit, warn, return the relabelled column
      .ok (.col name vals (some u), [warnMsg u])
    | some uq =>
      if uq.dim == u.dim then
        .ok (.col name (vals.map (fun v => convert v uq u)) (some u), [])
      else
        .error nonEquivalentUnits
  | .qlist items, u =>
    let units := items.map Prod.snd
    if units.all (fun x => x.isNone) then
      -- lines 132-134: warn, then `quantity*unit` labels every element
      .ok (.qlist (items.map (fun p => (p.1, some u))), [warnMsg u])
    else
      match pairCheckErr units with
      | some e => .error e
      | none =>
        -- line 148: `[item.to(unit) for item in quantity]*unit`; an element
        -- without a unit cannot reach this line (the pair loop raises first
        -- whenever units and plain scalars are mixed)
        .ok (.qlist (items.map (fun p =>
          match p.2 with
          | some uq => (convert p.1 uq u, some u)
          | none => (p.1, some u))), [])
  | .scalar v u0, u =>
    -- lines 150-157, the trailing `else` branch
    match u0 with
    | some uq =>
      -- `unit.is_equivalent(quantity)` on a Quantity compares dimensions
      if uq.dim == u.dim then
        .ok (.scalar (convert v uq u) (some u), [])
      else
        -- `hasattr(quantity, 'unit')` holds, so raise
        .error nonEquivalentUnits
    | none =>
      -- `unit.is_equivalent(<plain number>)` holds only for a dimensionless
      -- required unit (astropy reads a bare number as a scaled dimensionless
      -- unit); `quantity.to(unit)` on a plain float would then fail
      if u.dim == "dimensionless" then
        .error ⟨"AttributeError", "float object has no attribute to"⟩
      else
        -- line 156 returns `quantity * unit`; the `warnings.warn` on line
        -- 157 sits after the `return` and never executes
        .ok (.scalar v (some u), [])

/-
`commonbeam` (lines 159-186).  The `radio_beam` solver is external numerical
code; it is abstracted as `solve : ℚ → Option Ellipse`, where `solve tol =
none` stands for `common_beam(tolerance=tol)` raising `BeamError` (the only
exception the `except` clause catches) and `some e` for success.
-/

/-- The fixed tolerance sequence of line 175, loosest first. -/
def tolerances : List ℚ :=
  [1 / 10000, 5 / 100000, 1 / 100000, 1 / 1000000, 1 / 10000000]

/-- Errors observable from `commonbeam`: a solver `BeamError` escaping the
loop, or the `NameError`/`UnboundLocalError` raised on line 182 when
`common` was never assigned. -/
inductive CbErr where
  | beamError
  | unboundLocalCommon
deriving DecidableEq

/-- The `for tolerance in (...): try ... break except BeamError: continue`
loop: the first succeeding tolerance wins; every failure is caught. -/
def cbLoop (solve : ℚ → Option Ellipse) : List ℚ → Option Ellipse
  | [] => none
  | t :: ts =>
    match solve t with
    | some c => some c
    | none => cbLoop solve ts

/-- Lines 175-186: run the tolerance loop, then read `common`.  If no
tolerance succeeded, `common` is an unbound local name and line 182 raises
`NameError` — the caught `BeamError`s never escape. -/
def commonbeamRun (solve : ℚ → Option Ellipse) : Except CbErr Ellipse :=
  match cbLoop solve tolerances with
  | some c => .ok c
  | none => .error .unboundLocalCommon

/-
`saveregions` (lines 188-216).  The written file is modelled as a list of
lines.  The Python format string is
"ellipse({}, {}, {}, {}, {}) # text={{}}\n": it holds five placeholders,
which receive the five numeric values, and an escaped brace pair "{{}}"
which renders as the literal two characters and consumes no argument — so
the sixth argument, `row['_name']`, is silently discarded.
-/

structure RegRow where
  x_cen : ℚ
  y_cen : ℚ
  major_fwhm : ℚ
  minor_fwhm : ℚ
  position_angle : ℚ
  rejected : ℤ
  name : String            -- the '_name' column
deriving DecidableEq

inductive RegLine where
  | header                                        -- the literal line "icrs"
  | ell (x y a b pa : ℚ) (text : String)          -- one ellipse line
deriving DecidableEq

def saveregionsLines (catalog : List RegRow) (skipRejects : Bool) : List RegLine :=
  let cat := if skipRejects then catalog.filter (fun r => r.rejected == 0) else catalog
  RegLine.header :: cat.map (fun r =>
    RegLine.ell r.x_cen r.y_cen (r.major_fwhm / 2) (r.minor_fwhm / 2)
      r.position_angle "\x7b\x7d")

/-- A catalog-bearing argument of `match`: either an upstream object with a
catalog, or the `MasterCatalog(arg1, arg2, catalog=stack)` wrapper built at
the end of a fold step. -/
inductive MatchArg where
  | source (cat : Catalog)
  | master (arg1 arg2 : MatchArg) (cat : Catalog)

/-- The `.catalog` attribute. -/
def MatchArg.catalog : MatchArg → Catalog
  | source c => c
  | master _ _ c => c

/-- Lines 241-335: `current_arg = args[0]` followed by the
`for k in range(len(args)-1)` fold.  The head of the argument list is
`args[0]`, `rest` is `args[1:]`. -/
def matchFold (eu : Ellipse → Ellipse → Ellipse) (thr2 : ℚ)
    (a0 : MatchArg) (rest : List MatchArg) : MatchArg :=
  rest.foldl (fun cur b =>
    let res := mergePass eu thr2 cur.catalog b.catalog
    .master cur b ⟨allExtraColnames cur.catalog b.catalog, res.rows⟩) a0

/-
Concrete inputs used by the theorems below.
-/

/-- An ellipse-union function for concrete runs (the merge claims under test
do not depend on the union's value, only on where it is written). -/
def euProj : Ellipse → Ellipse → Ellipse := fun e _ => e

/-- The default threshold 0.036 arcsec converted to degrees (line 239):
exactly 1e-5. -/
def defaultThreshold : ℚ := 36 / 1000 / 3600

/-- The concrete runs below use a threshold of 2 angular units, i.e. the
squared threshold 4, keeping the exact arithmetic small; the algorithm takes
the threshold as a parameter and none of the merge claims depend on its
default value. -/
def thr2Demo : ℚ := 4

/-- Row fields in order: _idx, _index, x_cen, y_cen, major_fwhm, minor_fwhm,
position_angle, rejected, extra. -/
def rowB : SrcRow := ⟨1, 0, 0, 0, 2, 1, 0, 0, []⟩

/-- Exactly at threshold distance 2 from B. -/
def rowC : SrcRow := ⟨2, 0, 2, 0, 20, 10, 5, 0, []⟩

/-- At distance 2 from the B/C merge midpoint (x = 1), but 3 > 2 from B. -/
def rowA : SrcRow := ⟨3, 0, 3, 0, 200, 100, 50, 0, []⟩

/-- The rejected row, far from everything. -/
def rowR : SrcRow := ⟨4, 0, 10, 10, 7, 6, 9, 1, []⟩

/-- First merge input: rows B and C, exactly threshold apart. -/
def catBC : Catalog := ⟨[], [rowB, rowC]⟩

/-- Second merge input: row A and the rejected row R. -/
def catAR : Catalog := ⟨[], [rowA, rowR]⟩

/-- One-row catalog at the origin. -/
def catP : Catalog := ⟨[], [⟨1, 0, 0, 0, 2, 1, 0, 0, []⟩]⟩

/-- One-row catalog at distance `d` along the x axis from the origin. -/
def catQ (d : ℚ) : Catalog := ⟨[], [⟨2, 0, d, 0, 4, 3, 0, 0, []⟩]⟩

/-- Catalog with a `band_detected` extra column, value present. -/
def catD1 : Catalog :=
  ⟨["band_detected"], [⟨1, 0, 0, 0, 2, 1, 0, 0, [("band_detected", some 1)]⟩]⟩

/-- Catalog with a `band_detected` extra column, value masked, far away. -/
def catD2 : Catalog :=
  ⟨["band_detected"], [⟨2, 0, 10, 10, 4, 3, 0, 0, [("band_detected", none)]⟩]⟩

/-
Helper lemmas (shared infrastructure, not claim theorems).
-/

/-- Prepending tolerances on which the solver fails does not change the
tolerance loop's outcome. -/
theorem cbLoop_append_none (solve : ℚ → Option Ellipse) (pre rest : List ℚ)
    (h : ∀ t2 ∈ pre, solve t2 = none) :
    cbLoop solve (pre ++ rest) = cbLoop solve rest := by
  induction pre with
  | nil => rfl
  | cons q qs ih =>
    have hq : solve q = none := h q (by simp)
    simp only [List.cons_append, cbLoop, hq]
    exact ih (fun t2 ht2 => h t2 (by simp [ht2]))

/-- A left fold of `min` lands at or below `c` exactly when the seed or some
list element does. -/
theorem foldl_min_le_iff (c : ℚ) :
    ∀ (l : List ℚ) (a : ℚ), List.foldl min a l ≤ c ↔ a ≤ c ∨ ∃ b ∈ l, b ≤ c := by
  intro l
  induction l with
  | nil => simp
  | cons x xs ih =>
    intro a
    simp only [List.foldl_cons, ih (min a x), min_le_iff, List.mem_cons]
    constructor
    · rintro ((h | h) | ⟨b, hb, hbc⟩)
      · exact Or.inl h
      · exact Or.inr ⟨x, Or.inl rfl, h⟩
      · exact Or.inr ⟨b, Or.inr hb, hbc⟩
    · rintro (h | ⟨b, (rfl | hb), hbc⟩)
      · exact Or.inl (Or.inl h)
      · exact Or.inl (Or.inr hbc)
      · exact Or.inr ⟨b, hb, hbc⟩

/-- One unfolding step of the scan: break once the index reaches one less
than the current table length. -/
theorem matchLoop_break (eu : Ellipse → Ellipse → Ellipse) (thr2 : ℚ)
    (rej : List ℕ) (fuel : ℕ) (stack : List SrcRow) (i : ℕ)
    (h1 : stack.length - 1 ≤ i) :
    matchLoop eu thr2 rej (fuel + 1) stack i = (stack, []) := by
  simp only [matchLoop]
  rw [if_pos h1]

/-- One unfolding step of the scan: a position in the stale rejected list is
skipped. -/
theorem matchLoop_skip (eu : Ellipse → Ellipse → Ellipse) (thr2 : ℚ)
    (rej : List ℕ) (fuel : ℕ) (stack : List SrcRow) (i : ℕ)
    (h1 : ¬ stack.length - 1 ≤ i) (h2 : i ∈ rej) :
    matchLoop eu thr2 rej (fuel + 1) stack i =
      matchLoop eu thr2 rej fuel stack (i + 1) := by
  simp only [matchLoop]
  rw [if_neg h1, if_pos h2]

/-- One unfolding step of the scan when the test row finds no match. -/
theorem matchLoop_nomatch (eu : Ellipse → Ellipse → Ellipse) (thr2 : ℚ)
    (rej : List ℕ) (fuel : ℕ) (stack : List SrcRow) (i : ℕ)
    (h1 : ¬ stack.length - 1 ≤ i) (h2 : i ∉ rej)
    (h3 : foundMatch thr2 (cappedDists (stack.getD i default) stack) = false) :
    matchLoop eu thr2 rej (fuel + 1) stack i =
      ((matchLoop eu thr2 rej fuel stack (i + 1)).1,
        (stack.length, i) :: (matchLoop eu thr2 rej fuel stack (i + 1)).2) := by
  simp only [matchLoop]
  rw [if_neg h1, if_neg h2, h3]
  simp only [Bool.false_eq_true, if_false]

/-- One unfolding step of the scan when the test row is matched. -/
theorem matchLoop_matched (eu : Ellipse → Ellipse → Ellipse) (thr2 : ℚ)
    (rej : List ℕ) (fuel : ℕ) (stack : List SrcRow) (i : ℕ)
    (h1 : ¬ stack.length - 1 ≤ i) (h2 : i ∉ rej)
    (h3 : foundMatch thr2 (cappedDists (stack.getD i default) stack) = true) :
    matchLoop eu thr2 rej (fuel + 1) stack i =
      ((matchLoop eu thr2 rej fuel (mergedStack eu stack i) (i + 1)).1,
        (stack.length, i) ::
          (matchLoop eu thr2 rej fuel (mergedStack eu stack i) (i + 1)).2) := by
  simp only [matchLoop]
  rw [if_neg h1, if_neg h2, h3]
  simp only [if_true]

/-- Merging never grows the working table. -/
theorem mergedStack_length_le (eu : Ellipse → Ellipse → Ellipse)
    (stack : List SrcRow) (i : ℕ) :
    (mergedStack eu stack i).length ≤ stack.length := by
  unfold mergedStack
  simp only [List.length_set]
  exact List.length_eraseIdx_le _ _

/-- The fuel device is semantically inert: any two fuel values that cover
the remaining scan (`stack.length ≤ i + fuel`, which `mergePass`'s
`length + 1` always does at `i = 0`) give the same result, because the
index grows by one per iteration while the table never grows, so the
`i >= len(stack) - 1` break always fires before the fuel runs out. -/
theorem matchLoop_fuel_irrelevant (eu : Ellipse → Ellipse → Ellipse)
    (thr2 : ℚ) (rej : List ℕ) :
    ∀ (fuel1 fuel2 : ℕ) (stack : List SrcRow) (i : ℕ),
      stack.length ≤ i + fuel1 → stack.length ≤ i + fuel2 →
      matchLoop eu thr2 rej fuel1 stack i = matchLoop eu thr2 rej fuel2 stack i := by
  intro fuel1
  induction fuel1 with
  | zero =>
    intro fuel2 stack i h1 h2
    cases fuel2 with
    | zero => rfl
    | succ f2 =>
      rw [matchLoop_break eu thr2 rej f2 stack i (by omega)]
      rfl
  | succ f1 ih =>
    intro fuel2 stack i h1 h2
    cases fuel2 with
    | zero =>
      rw [matchLoop_break eu thr2 rej f1 stack i (by omega)]
      rfl
    | succ f2 =>
      by_cases hb : stack.length - 1 ≤ i
      · rw [matchLoop_break eu thr2 rej f1 stack i hb,
          matchLoop_break eu thr2 rej f2 stack i hb]
      · by_cases hr : i ∈ rej
        · rw [matchLoop_skip eu thr2 rej f1 stack i hb hr,
            matchLoop_skip eu thr2 rej f2 stack i hb hr]
          exact ih f2 stack (i + 1) (by omega) (by omega)
        · by_cases hf : foundMatch thr2
              (cappedDists (stack.getD i default) stack) = true
          · rw [matchLoop_matched eu thr2 rej f1 stack i hb hr hf,
              matchLoop_matched eu thr2 rej f2 stack i hb hr hf]
            have hlen := mergedStack_length_le eu stack i
            rw [ih f2 (mergedStack eu stack i) (i + 1) (by omega) (by omega)]
          · have hff := Bool.eq_false_iff.mpr hf
            rw [matchLoop_nomatch eu thr2 rej f1 stack i hb hr hff,
              matchLoop_nomatch eu thr2 rej f2 stack i hb hr hff]
            rw [ih f2 stack (i + 1) (by omega) (by omega)]

/-
Claim theorems.
-/

set_option maxRecDepth 3000 in
set_option maxHeartbeats 2000000 in
/-- C1: the claim states that rows whose rejected flag is 1 appear in the
output of a merge pass with all of their field values unchanged, however many
non-rejected rows are matched away.  In the run below (catalogs [B, C] and
[A, R] with R rejected, threshold 2), B first absorbs C; then test row A
matches the earlier merged row B, `remove_row` shifts the table, and the
subsequent writes to the live view `stack[i]` land on the rejected row R:
its center and ellipse are overwritten (x_cen becomes 11/2 instead of the
original 10).  Rejected rows are indeed never candidates and never removed,
so the count is preserved, but their values are not invariant: the code
contradicts the invariant (a stale-position slip after `remove_row`; the
source comment says "Replace properties of test star"). -/
theorem c1_rejected_row_overwritten :
    ((mergePass euProj thr2Demo catBC catAR).rows.filter
        (fun r => r.rejected == 1)).map
      (fun r => (r.idx, r.x_cen, r.y_cen, r.major_fwhm, r.minor_fwhm, r.position_angle)) =
      [(4, 11 / 2, 5, 20, 10, 5)]
    ∧ rowR.x_cen = 10
    ∧ ((11 : ℚ) / 2) ≠ 10 := by
  refine ⟨by with_unfolding_all decide, rfl, by with_unfolding_all decide⟩

set_option maxRecDepth 3000 in
set_option maxHeartbeats 2000000 in
/-- C2: the claim states that after a match it is always the test row itself
whose center is overwritten with the unweighted average and whose ellipse
becomes the EllipseUnion result, for every relative position of the matched
row.  In the same run as C1, test row A (idx 3) matches the earlier row B:
B is removed, but because `teststar = stack[i]` is a live view read after
`remove_row`, the averaged center and the union ellipse are written into the
row that shifted into position i — the rejected row R (idx 4) — while the
test row A keeps its original center (3, 0) and ellipse (200, 100, 50). -/
theorem c2_test_row_not_updated :
    (mergePass euProj thr2Demo catBC catAR).rows.map
      (fun r => (r.idx, r.rejected, r.x_cen, r.y_cen, r.major_fwhm)) =
      [(3, 0, 3, 0, 200), (4, 1, 11 / 2, 5, 20)]
    ∧ rowA.x_cen = 3 ∧ rowA.major_fwhm = 200 := by
  refine ⟨by with_unfolding_all decide, rfl, rfl⟩

set_option maxRecDepth 3000 in
set_option maxHeartbeats 2000000 in
/-- C3 counterexample: the claim states that after a merge pass no masked
entry remains in any column whose name contains "detected".  Merging the
two far-apart one-row catalogs `catD1`, `catD2` (the second row's
`band_detected` entry is masked), the output still carries the masked entry:
the code only sets the column's `fill_value` attribute, it never fills. -/
theorem c3_masked_detected_entry_remains :
    ((mergePass euProj thr2Demo catD1 catD2).rows.getD 1 default).extra.lookup
      "band_detected" = some none
    ∧ (some (none : Option ℚ)) ≠ some (some (0 : ℚ)) := by
  refine ⟨by with_unfolding_all decide, by with_unfolding_all decide⟩

/-- C3 amended: after each merge pass, every column whose name contains the
substring "detected" has its fill_value set to 0 — masked entries in such
columns would read as false/0 only if the table were later explicitly
filled; the entries themselves remain masked in the output catalog. -/
theorem c3_fill_value_set_not_filled (eu : Ellipse → Ellipse → Ellipse)
    (thr2 : ℚ) (c1 c2 : Catalog) (c : String)
    (hc : c ∈ sortedColnamesAll c1 c2) (hdet : strContains "detected" c = true) :
    (c, (0 : ℚ)) ∈ (mergePass eu thr2 c1 c2).detectedFill
    ∧ ((mergePass euProj thr2Demo catD1 catD2).rows.getD 1 default).extra.lookup
        "band_detected" = some none := by
  constructor
  · have hdf : (mergePass eu thr2 c1 c2).detectedFill =
        ((sortedColnamesAll c1 c2).filter (fun c0 => strContains "detected" c0)).map
          (fun c0 => (c0, (0 : ℚ))) := rfl
    rw [hdf]
    exact List.mem_map.mpr ⟨c, List.mem_filter.mpr ⟨hc, hdet⟩, rfl⟩
  · with_unfolding_all decide

set_option maxRecDepth 3000 in
/-- Witness for the C3 amended theorem at the `band_detected` column of the
concrete pass. -/
theorem c3_fill_value_set_not_filled_w :
    ("band_detected", (0 : ℚ)) ∈ (mergePass euProj thr2Demo catD1 catD2).detectedFill
    ∧ ((mergePass euProj thr2Demo catD1 catD2).rows.getD 1 default).extra.lookup
        "band_detected" = some none :=
  c3_fill_value_set_not_filled euProj thr2Demo catD1 catD2 "band_detected"
    (by with_unfolding_all decide) (by decide)

/-- C4: the claim states each exported line ends with `text={name}` carrying
the row's display name.  The Python format string
"ellipse({}, {}, {}, {}, {}) # text={{}}" holds five placeholders for the
five numbers, and the escaped "{{}}" renders as the literal brace pair while
consuming no argument, so `row['_name']` is silently discarded: the line for
a row named "A1" ends in the literal two characters, never in "A1". -/
theorem c4_name_discarded :
    saveregionsLines [⟨10, 20, 4, 2, 30, 0, "A1"⟩] true =
      [RegLine.header, RegLine.ell 10 20 2 1 30 "\x7b\x7d"]
    ∧ "\x7b\x7d" ≠ "A1" := by
  refine ⟨by with_unfolding_all rfl, by decide⟩

/-- C5 counterexample: the claim states that when every tolerance fails the
underlying solver failure itself propagates uncaught.  With a solver that
fails at every tolerance, every `BeamError` is caught by the `except`
clause; what escapes is the `NameError` raised when line 182 reads the
never-assigned `common`, not the solver's `BeamError`. -/
theorem c5_exhaustion_not_beamerror :
    commonbeamRun (fun _ => none) = .error .unboundLocalCommon
    ∧ commonbeamRun (fun _ => none) ≠ .error .beamError := by
  refine ⟨rfl, ?_⟩
  intro h
  have h2 : (Except.error CbErr.unboundLocalCommon : Except CbErr Ellipse) =
      Except.error CbErr.beamError := h
  injection h2 with h3
  exact CbErr.noConfusion h3

/-- C5 amended: `commonbeam` tries the tolerances 1e-4, 5e-5, 1e-5, 1e-6,
1e-7 loosest-first and accepts the first tolerance at which the solver
succeeds; but when every tolerance fails, each `BeamError` is caught inside
the loop and the call instead fails with the unbound-local `NameError`
raised when reading the never-assigned `common` — the solver failure itself
never propagates. -/
theorem c5_loosest_first_then_unbound :
    (∀ (solve : ℚ → Option Ellipse) (pre : List ℚ) (t : ℚ) (post : List ℚ)
        (e : Ellipse),
        tolerances = pre ++ t :: post →
        (∀ t2 ∈ pre, solve t2 = none) →
        solve t = some e →
        commonbeamRun solve = .ok e)
    ∧ (∀ solve : ℚ → Option Ellipse,
        (∀ t ∈ tolerances, solve t = none) →
        commonbeamRun solve = .error .unboundLocalCommon) := by
  constructor
  · intro solve pre t post e hseq hpre ht
    unfold commonbeamRun
    rw [hseq, cbLoop_append_none solve pre (t :: post) hpre]
    simp [cbLoop, ht]
  · intro solve hall
    unfold commonbeamRun
    have hn : cbLoop solve tolerances = none := by
      have h2 := cbLoop_append_none solve tolerances [] hall
      simpa using h2
    rw [hn]

/-- Witness for the C5 amended theorem: a solver succeeding at the loosest
tolerance is accepted there, and a solver failing everywhere surfaces the
unbound-local error. -/
theorem c5_loosest_first_then_unbound_w :
    commonbeamRun (fun _ => some ((1 : ℚ), (1 : ℚ), (0 : ℚ))) = .ok (1, 1, 0)
    ∧ commonbeamRun (fun _ => (none : Option Ellipse)) =
        .error .unboundLocalCommon :=
  ⟨c5_loosest_first_then_unbound.1 (fun _ => some ((1 : ℚ), (1 : ℚ), (0 : ℚ)))
      [] (1 / 10000) [5 / 100000, 1 / 100000, 1 / 1000000, 1 / 10000000]
      (1, 1, 0) rfl (by simp) rfl,
   c5_loosest_first_then_unbound.2 (fun _ => none) (fun _ _ => rfl)⟩

/-- C6: the claim states that a unitless scalar or column is relabelled with
the required unit and a non-fatal warning is emitted.  A unitless Column
does warn (lines 92-95), but for a plain scalar the `warnings.warn` call on
line 157 sits after the `return` on line 156 and never executes: the scalar
is returned relabelled with no warning.  The code contradicts its own
evident intent (the dead warn statement). -/
theorem c6_scalar_warning_unreachable :
    ucheckE (.scalar 5 none) degU = .ok (.scalar 5 (some degU), [])
    ∧ ucheckE (.col "flux" [5] none) degU =
        .ok (.col "flux" [5] (some degU), [warnMsg degU]) := by
  refine ⟨rfl, rfl⟩

/-- C7 counterexample: the claim states that a mixed units/scalars sequence
fails with a MixedUnitsError that is a distinct error kind from the
UnitMismatch error, so a caller can tell them apart.  Both failures raise
the same exception class `NonEquivalentError` (lines 14-15); only the
message strings differ, so no distinct kinds exist. -/
theorem c7_same_exception_class :
    ucheckE (.qlist [(1, some degU), (2, none)]) degU = .error cannotMix
    ∧ ucheckE (.qlist [(1, some degU), (2, some secondU)]) degU =
        .error nonEquivalentUnits
    ∧ cannotMix.className = nonEquivalentUnits.className := by
  refine ⟨rfl, rfl, rfl⟩

/-- C7 amended: a list mixing unit-bearing and unitless elements does fail,
but with the same exception class `NonEquivalentError` that dimension
mismatches raise; only the message text distinguishes the two, so no
distinct error kind is available to the caller. -/
theorem c7_mixed_same_class (items : List (ℚ × Option AUnit)) (u : AUnit)
    (h1 : ∃ p ∈ items, p.2.isSome = true) (h2 : ∃ p ∈ items, p.2 = none) :
    ∃ e, ucheckE (.qlist items) u = .error e
      ∧ e.className = "NonEquivalentError" := by
  obtain ⟨ps, hps, hsome⟩ := h1
  obtain ⟨pn, hpn, hnone⟩ := h2
  obtain ⟨a, ha⟩ := Option.isSome_iff_exists.mp hsome
  have hsu : ps.2 ∈ items.map Prod.snd := List.mem_map.mpr ⟨ps, hps, rfl⟩
  have hnu : (none : Option AUnit) ∈ items.map Prod.snd :=
    List.mem_map.mpr ⟨pn, hpn, hnone⟩
  have hall : (items.map Prod.snd).all (fun x => x.isNone) = false := by
    cases hA : (items.map Prod.snd).all (fun x => x.isNone) with
    | false => rfl
    | true =>
      exfalso
      have h3 := List.all_eq_true.mp hA _ hsu
      rw [ha] at h3
      simp at h3
  have hpc : ∃ e0, pairCheckErr (items.map Prod.snd) = some e0 := by
    cases hOpt : pairCheckErr (items.map Prod.snd) with
    | some e0 => exact ⟨e0, rfl⟩
    | none =>
      exfalso
      have hinner := List.findSome?_eq_none_iff.mp hOpt _ hsu
      have hmemf : (none : Option AUnit) ∈
          (items.map Prod.snd).filter (fun x => x ≠ ps.2) := by
        refine List.mem_filter.mpr ⟨hnu, ?_⟩
        rw [ha]
        simp
      have hcp := List.findSome?_eq_none_iff.mp hinner _ hmemf
      rw [ha] at hcp
      simp [checkPair] at hcp
  obtain ⟨e0, he0⟩ := hpc
  have hcls : e0.className = "NonEquivalentError" := by
    obtain ⟨u1, hu1, hinner⟩ := List.exists_of_findSome?_eq_some he0
    obtain ⟨u2, hu2, hcp⟩ := List.exists_of_findSome?_eq_some hinner
    cases u1 with
    | none =>
      cases u2 with
      | none => simp [checkPair] at hcp
      | some b =>
        simp [checkPair] at hcp
        rw [← hcp]
        rfl
    | some a2 =>
      cases u2 with
      | none =>
        simp [checkPair] at hcp
        rw [← hcp]
        rfl
      | some b =>
        simp only [checkPair] at hcp
        split at hcp
        · exact absurd hcp (by simp)
        · rw [← Option.some.inj hcp]
          rfl
  refine ⟨e0, ?_, hcls⟩
  simp only [ucheckE]
  rw [hall]
  simp only [Bool.false_eq_true, if_false]
  rw [he0]

/-- Witness for the C7 amended theorem at a concrete mixed list. -/
theorem c7_mixed_same_class_w :
    ∃ e, ucheckE (.qlist [(1, some degU), (2, (none : Option AUnit))]) degU =
        .error e ∧ e.className = "NonEquivalentError" :=
  c7_mixed_same_class [(1, some degU), (2, none)] degU
    (by with_unfolding_all decide) (by with_unfolding_all decide)

/-- The stacked table that `buildStack catP (catQ d)` produces. -/
def stackPQ (d : ℚ) : List SrcRow :=
  [⟨1, 0, 0, 0, 2, 1, 0, 0, []⟩, ⟨2, 1, d, 0, 4, 3, 0, 0, []⟩]

set_option maxRecDepth 3000 in
set_option maxHeartbeats 2000000 in
/-- C8: the match decision is inclusive at the boundary.  First conjunct:
for every test row, `found_match` is set exactly when the minimum squared
distance among the capped candidate subset is ≤ the squared threshold
(squaring both sides is exactly the code's comparison of the Euclidean
distance against the threshold, since square root is strictly monotone).
Second conjunct: the default 0.036 arcsec threshold converts to exactly
1e-5 degrees.  Third: two sources exactly threshold apart (distance 2,
threshold 2) merge into one row whose center is the average.  Fourth: for
every distance strictly greater than the threshold, with no other
candidates, both sources survive the pass unchanged. -/
theorem c8_match_iff_min_within_threshold :
    (∀ (thr2 : ℚ) (t : SrcRow) (stack : List SrcRow),
        foundMatch thr2 (cappedDists t stack) = true ↔
        ∃ m, ((cappedDists t stack).map Prod.fst).min? = some m ∧ m ≤ thr2)
    ∧ defaultThreshold = 1 / 100000
    ∧ (mergePass euProj thr2Demo catP (catQ 2)).rows.map
        (fun r => (r.idx, r.x_cen, r.y_cen)) = [(1, 1, 0)]
    ∧ ∀ d : ℚ, 2 < d →
        (mergePass euProj thr2Demo catP (catQ d)).rows.map
          (fun r => (r.idx, r.x_cen, r.y_cen)) = [(1, 0, 0), (2, d, 0)] := by
  refine ⟨?_, by norm_num [defaultThreshold], by with_unfolding_all decide, ?_⟩
  · intro thr2 t stack
    generalize cappedDists t stack = l
    cases l with
    | nil => simp [foundMatch]
    | cons p ps =>
      rw [foundMatch, List.any_eq_true]
      simp only [List.map_cons, List.min?_cons', Option.some.injEq,
        decide_eq_true_eq, List.mem_cons]
      constructor
      · rintro ⟨x, hx | hx, hle⟩
        · refine ⟨(ps.map Prod.fst).foldl min p.1, rfl, ?_⟩
          rw [foldl_min_le_iff]
          exact Or.inl (hx ▸ hle)
        · refine ⟨(ps.map Prod.fst).foldl min p.1, rfl, ?_⟩
          rw [foldl_min_le_iff]
          exact Or.inr ⟨x.1, List.mem_map.mpr ⟨x, hx, rfl⟩, hle⟩
      · rintro ⟨m, hm, hle⟩
        rw [← hm, foldl_min_le_iff] at hle
        rcases hle with h | ⟨b, hb, hble⟩
        · exact ⟨p, Or.inl rfl, h⟩
        · obtain ⟨q, hq, rfl⟩ := List.mem_map.mp hb
          exact ⟨q, Or.inr hq, hble⟩
  · intro d hd
    have hd0 : (0 : ℚ) < d := lt_trans (by norm_num) hd
    have hcd : cappedDists ((stackPQ d).getD 0 default) (stackPQ d) =
        [(|d - 0| * |d - 0| + |0 - 0| * |0 - 0|, 1)] := rfl
    have hval : |d - 0| * |d - 0| + |0 - 0| * |0 - 0| = d * d := by
      rw [sub_zero, sub_zero, abs_of_pos hd0]
      norm_num
    have hgt : ¬ (|d - 0| * |d - 0| + |0 - 0| * |0 - 0| ≤ thr2Demo) := by
      rw [hval]
      show ¬ (d * d ≤ (4 : ℚ))
      push_neg
      nlinarith
    have hno : foundMatch thr2Demo
        (cappedDists ((stackPQ d).getD 0 default) (stackPQ d)) = false := by
      rw [hcd]
      simp only [foundMatch, List.any_cons, List.any_nil, Bool.or_false]
      exact decide_eq_false hgt
    have s1 := matchLoop_nomatch euProj thr2Demo [] 2 (stackPQ d) 0
      (by simp [stackPQ]) (by simp) hno
    have s2 := matchLoop_break euProj thr2Demo [] 1 (stackPQ d) 1
      (by simp [stackPQ])
    have hmp : (mergePass euProj thr2Demo catP (catQ d)).rows =
        (matchLoop euProj thr2Demo [] ((stackPQ d).length + 1)
            (stackPQ d) 0).1.enum.map
          (fun p => { p.2 with index := (p.1 : ℤ) }) := rfl
    rw [hmp]
    norm_num [stackPQ] at s1 s2 ⊢
    rw [s2] at s1
    rw [s1]
    simp [List.enum, List.enumFrom]

/-- Witness for C8 at distance 3 > threshold 2: both rows survive the pass
unchanged. -/
theorem c8_match_iff_min_within_threshold_w :
    (mergePass euProj thr2Demo catP (catQ 3)).rows.map
      (fun r => (r.idx, r.x_cen, r.y_cen)) = [(1, 0, 0), (2, 3, 0)] :=
  c8_match_iff_min_within_threshold.2.2.2 3 (by norm_num)

/-- C9: the scan never takes the row at the last position of the current
working table as a test row — every executed test body has its index
strictly below the table length minus one (the `i >= len(stack) - 1` break
fires first), so the trace never records the final position. -/
theorem c9_last_row_never_tested (eu : Ellipse → Ellipse → Ellipse)
    (thr2 : ℚ) (rej : List ℕ) (fuel : ℕ) (stack : List SrcRow) (i : ℕ)
    (p : ℕ × ℕ) (hp : p ∈ (matchLoop eu thr2 rej fuel stack i).2) :
    p.2 + 1 < p.1 := by
  induction fuel generalizing stack i with
  | zero => simp [matchLoop] at hp
  | succ f ih =>
    by_cases h1 : stack.length - 1 ≤ i
    · rw [matchLoop_break eu thr2 rej f stack i h1] at hp
      simp at hp
    · by_cases h2 : i ∈ rej
      · rw [matchLoop_skip eu thr2 rej f stack i h1 h2] at hp
        exact ih _ _ hp
      · by_cases h3 : foundMatch thr2
            (cappedDists (stack.getD i default) stack) = true
        · rw [matchLoop_matched eu thr2 rej f stack i h1 h2 h3] at hp
          rcases List.mem_cons.mp hp with h | h
          · rw [h]
            show i + 1 < stack.length
            omega
          · exact ih _ _ h
        · have h3f := Bool.eq_false_iff.mpr h3
          rw [matchLoop_nomatch eu thr2 rej f stack i h1 h2 h3f] at hp
          rcases List.mem_cons.mp hp with h | h
          · rw [h]
            show i + 1 < stack.length
            omega
          · exact ih _ _ h

set_option maxRecDepth 3000 in
set_option maxHeartbeats 2000000 in
/-- Witness for C9 on a concrete run: in the two-row merge the trace records
the single test at position 0 of a length-2 table, and 0 + 1 < 2. -/
theorem c9_last_row_never_tested_w :
    ((2 : ℕ), (0 : ℕ)) ∈ (matchLoop euProj thr2Demo [] 3 (stackPQ 2) 0).2
    ∧ (0 : ℕ) + 1 < 2 :=
  ⟨by with_unfolding_all decide,
   c9_last_row_never_tested euProj thr2Demo [] 3 (stackPQ 2) 0 (2, 0)
     (by with_unfolding_all decide)⟩

/-- C10: with exactly one catalog-bearing argument the fold body of `match`
never runs (`range(len(args)-1)` is empty) and `args[0]` itself is returned:
no schema union, no matching, no index reassignment, no MasterCatalog
wrapper. -/
theorem c10_single_argument_identity (eu : Ellipse → Ellipse → Ellipse)
    (thr2 : ℚ) (a : MatchArg) : matchFold eu thr2 a [] = a := rfl

end Dendrocat
